import Mathlib

/-!
Verification of `lightecho-stellar-oracle` (CLI + batch feeder).

The development shallowly embeds the three Python source files:
  * `oracle-onchain/sep40/cli/scripts/feed_bulk_from_db.py` (batch feeder)
  * `oracle-onchain/sep40/cli/cli.py` (main CLI)
  * `oracle-onchain/sep40/examples/price_up_down/cli/cli.py` (example CLI)

Machine integers are modelled as `Int` (Python integers are unbounded), the
sqlite database and the subprocess boundary are modelled by explicit inputs
(the list of rows read, and a `runCli` function giving each invocation's
`(success, output)` pair), and Python exceptions by `Except`.
-/

namespace LightechoOracle

/-- `RESOLUTION = 600` from `feed_bulk_from_db.py`. -/
def RESOLUTION : Int := 600

/-- Embedding of `normalize_timestamp(unnormalized_timestamp, resolution)`
from `feed_bulk_from_db.py`:
`math.ceil(unnormalized_timestamp / resolution) * resolution`, with Python's
true division and `math.ceil` read as exact rational ceiling. -/
def normalize_timestamp (unnormalized_timestamp resolution : Int) : Int :=
  ⌈(unnormalized_timestamp : ℚ) / (resolution : ℚ)⌉ * resolution

lemma normalize_timestamp_emod (t r : Int) :
    normalize_timestamp t r % r = 0 := by
  simp [normalize_timestamp, Int.mul_emod_left]

lemma le_normalize_timestamp (t r : Int) (hr : 0 < r) :
    t ≤ normalize_timestamp t r := by
  have hrq : (0 : ℚ) < (r : ℚ) := by exact_mod_cast hr
  have h1 : (t : ℚ) / (r : ℚ) ≤ (⌈(t : ℚ) / (r : ℚ)⌉ : ℚ) := Int.le_ceil _
  have h2 : (t : ℚ) ≤ (⌈(t : ℚ) / (r : ℚ)⌉ : ℚ) * (r : ℚ) :=
    (div_le_iff₀ hrq).mp h1
  have h3 : (t : ℚ) ≤ ((⌈(t : ℚ) / (r : ℚ)⌉ * r : ℤ) : ℚ) := by push_cast; exact h2
  exact Int.cast_le.mp h3

lemma normalize_timestamp_sub_lt (t r : Int) (hr : 0 < r) :
    normalize_timestamp t r - t < r := by
  have hrq : (0 : ℚ) < (r : ℚ) := by exact_mod_cast hr
  have h1 : (⌈(t : ℚ) / (r : ℚ)⌉ : ℚ) < (t : ℚ) / (r : ℚ) + 1 :=
    Int.ceil_lt_add_one _
  have h2 : (⌈(t : ℚ) / (r : ℚ)⌉ : ℚ) * (r : ℚ) < ((t : ℚ) / (r : ℚ) + 1) * (r : ℚ) :=
    mul_lt_mul_of_pos_right h1 hrq
  have h3 : ((t : ℚ) / (r : ℚ) + 1) * (r : ℚ) = (t : ℚ) + (r : ℚ) := by
    field_simp
  have h4' : ((⌈(t : ℚ) / (r : ℚ)⌉ * r : ℤ) : ℚ) < ((t + r : ℤ) : ℚ) := by
    push_cast
    rw [h3] at h2
    exact h2
  have h5 : normalize_timestamp t r < t + r := Int.cast_lt.mp h4'
  omega

lemma normalize_timestamp_of_aligned (t r : Int) (hr : 0 < r)
    (h : t % r = 0) : normalize_timestamp t r = t := by
  obtain ⟨k, hk⟩ : r ∣ t := Int.dvd_of_emod_eq_zero h
  subst hk
  have hrq : ((r : ℚ)) ≠ 0 := by
    exact_mod_cast hr.ne'
  unfold normalize_timestamp
  push_cast
  rw [mul_comm (r : ℚ) (k : ℚ), mul_div_assoc, div_self hrq, mul_one,
    Int.ceil_intCast]
  ring

lemma normalize_timestamp_le_self_iff (t r : Int) (hr : 0 < r) :
    normalize_timestamp t r ≤ t ↔ t % r = 0 := by
  constructor
  · intro h
    have h2 := le_normalize_timestamp t r hr
    have h3 : normalize_timestamp t r = t := le_antisymm h h2
    have h4 := normalize_timestamp_emod t r
    rw [h3] at h4
    exact h4
  · intro h
    rw [normalize_timestamp_of_aligned t r hr h]

/-! ### Data model of the batch feeder (`feed_bulk_from_db.py`)

A row of the sqlite `prices` table as selected by `read_prices_from_db`
(`SELECT id, updated_at, source, symbol, price, sell_asset, buy_asset ...`).
`updated_at` is modelled as an integer unix timestamp. -/

structure DbRow where
  id : Int
  updated_at : Int
  source : Int
  symbol : String
  price : String
  sell_asset : String
  buy_asset : String
deriving DecidableEq, Repr

/-- A `DbRow` after `read_prices_from_db` has attached
`result_dict["normalized_timestamp"]`. -/
structure FeedRow extends DbRow where
  normalized_timestamp : Int
deriving DecidableEq, Repr

/-- The dictionary built inside the loop of `add_prices_to_blockchain`:
`{"source": ..., "asset_type": "other", "asset": price["buy_asset"],
"price": ..., "timestamp": price["normalized_timestamp"]}`. -/
structure ParsedPrice where
  source : Int
  asset_type : String
  asset : String
  price : String
  timestamp : Int
deriving DecidableEq, Repr

/-- The `parsed_price` dictionary built from one `price` row in the loop of
`add_prices_to_blockchain`. -/
def parsedPriceOf (price : FeedRow) : ParsedPrice :=
  { source := price.source
    asset_type := "other"
    asset := price.buy_asset
    price := price.price
    timestamp := price.normalized_timestamp }

/-- Contract id imported from the external `lightecho_stellar_oracle`
package; its concrete value lives outside this repository, so it is modelled
as an abstract marker string. -/
def TESTNET_CONTRACT_XLM : String := "TESTNET_CONTRACT_XLM"

/-- Contract id imported from the external `lightecho_stellar_oracle`
package; modelled as an abstract marker string (distinct from the XLM one). -/
def TESTNET_CONTRACT_USD : String := "TESTNET_CONTRACT_USD"

/-- One `./cli` invocation issued by `add_prices_to_blockchain`:
`--oracle-contract-id <id> oracle add_prices_base64 <base64 of group>`.
The code serializes the group as base64(JSON); the serialization is an
injective encoding performed right before the subprocess call, so the
command is modelled with the group kept as structured data. -/
structure CliCmd where
  contractId : String
  pricesArg : List ParsedPrice
deriving DecidableEq, Repr

/-- One row of the append-only `feed_bulk_from_db_logs` table
(`command`, `success`, `output`), written by `log_result_to_db` after every
invocation, successful or not. -/
structure LogEntry where
  command : CliCmd
  success : Bool
  output : String
deriving DecidableEq, Repr

/-- The database side effects of one `add_prices_to_blockchain` call:
the audit-log rows inserted, and the `(source, symbol)` pairs set to
`added_to_blockchain = 1` by `mark_symbols_as_added_to_blockchain`. -/
structure AddEffects where
  logs : List LogEntry
  marked : List (Int × String)
deriving DecidableEq, Repr

/-- `source_symbols.setdefault(price["source"], []).append(price["symbol"])`:
Python-dict semantics, insertion order preserved, symbol appended to the
entry of `src` (created at the end if absent). -/
def addSymbol (d : List (Int × List String)) (src : Int) (sym : String) :
    List (Int × List String) :=
  match d with
  | [] => [(src, [sym])]
  | (s, syms) :: rest =>
    if s = src then (s, syms ++ [sym]) :: rest
    else (s, syms) :: addSymbol rest src sym

/-- Flattening of the `source_symbols` dict into the `(source, symbol)`
pairs that the final loop of `add_prices_to_blockchain` hands to
`mark_symbols_as_added_to_blockchain`. -/
def flattenSourceSymbols (d : List (Int × List String)) : List (Int × String) :=
  d.flatMap fun e => e.2.map fun sym => (e.1, sym)

/-- The `for price in prices:` loop of `add_prices_to_blockchain`: builds
`xlm_based_prices`, `usd_based_prices` and `source_symbols` in order, and
raises `ValueError(f"Unexpected price sell_asset: ...")` on any other
`sell_asset`. -/
def partitionPricesLoop (xlm usd : List ParsedPrice)
    (ss : List (Int × List String)) :
    List FeedRow →
      Except String (List ParsedPrice × List ParsedPrice × List (Int × List String))
  | [] => Except.ok (xlm, usd, ss)
  | price :: rest =>
    let parsed := parsedPriceOf price
    let ss2 := addSymbol ss price.source price.symbol
    if price.sell_asset = "XLM" then
      partitionPricesLoop (xlm ++ [parsed]) usd ss2 rest
    else if price.sell_asset = "USD" then
      partitionPricesLoop xlm (usd ++ [parsed]) ss2 rest
    else
      Except.error ("Unexpected price sell_asset: " ++ price.sell_asset)

/-- Embedding of `add_prices_to_blockchain(prices)`.  The subprocess
boundary `run_cli` is a parameter giving each invocation's
`(success, output)` pair.  After the (at most two) submissions, the code
unconditionally runs `mark_symbols_as_added_to_blockchain` for every entry
of `source_symbols`. -/
def add_prices_to_blockchain (runCli : CliCmd → Bool × String)
    (prices : List FeedRow) : Except String AddEffects :=
  match partitionPricesLoop [] [] [] prices with
  | Except.error e => Except.error e
  | Except.ok (xlm_based_prices, usd_based_prices, source_symbols) =>
    let xlmLogs : List LogEntry :=
      if xlm_based_prices.isEmpty then []
      else
        let cmd : CliCmd := ⟨TESTNET_CONTRACT_XLM, xlm_based_prices⟩
        let res := runCli cmd
        [⟨cmd, res.1, res.2⟩]
    let usdLogs : List LogEntry :=
      if usd_based_prices.isEmpty then []
      else
        let cmd : CliCmd := ⟨TESTNET_CONTRACT_USD, usd_based_prices⟩
        let res := runCli cmd
        [⟨cmd, res.1, res.2⟩]
    Except.ok ⟨xlmLogs ++ usdLogs, flattenSourceSymbols source_symbols⟩

/-- The `for result in cursor.fetchall():` loop of `read_prices_from_db`.
`times idx` is the value of the Python local `current_timestamp`
(`int(datetime.now().timestamp())`) when processing the row at position
`idx`; the clock is read at most once per row, so the local, bound once in
Python, is inlined (`times` is pure).  `seen` holds the `(source, symbol)`
pairs recorded in the `symbols` dict so far (the code appends to
`symbols[source]` only when the row is kept). -/
def readPricesLoop (times : Nat → Int) :
    List DbRow → Nat → List (Int × String) → List FeedRow
  | [], _, _ => []
  | row :: rest, idx, seen =>
    if (row.source, row.symbol) ∈ seen then
      readPricesLoop times rest (idx + 1) seen
    else if normalize_timestamp (times idx) RESOLUTION ≤ times idx then
      { toDbRow := row,
        normalized_timestamp := normalize_timestamp (times idx) RESOLUTION } ::
        readPricesLoop times rest (idx + 1) ((row.source, row.symbol) :: seen)
    else
      readPricesLoop times rest (idx + 1) seen

/-- Embedding of `read_prices_from_db()`: `rows` are the rows returned by
the `SELECT`, `times` the per-row clock readings.  Returns `none` when the
kept list is empty (the code only logs "no new prices" and performs no
submission and no marking), otherwise the effects of
`add_prices_to_blockchain`. -/
def read_prices_from_db (times : Nat → Int) (runCli : CliCmd → Bool × String)
    (rows : List DbRow) : Option (Except String AddEffects) :=
  let prices := readPricesLoop times rows 0 []
  if prices.length = 0 then none
  else some (add_prices_to_blockchain runCli prices)

/-- Specification-side restatement of the deduplication performed by
`read_prices_from_db` (for comparison with `readPricesLoop`): keep only the
first occurrence of each `(source, symbol)` pair, in input order, given the
pairs already seen. -/
def keepFirstOccurrences (seen : List (Int × String)) : List DbRow → List DbRow
  | [] => []
  | row :: rest =>
    if (row.source, row.symbol) ∈ seen then keepFirstOccurrences seen rest
    else row :: keepFirstOccurrences ((row.source, row.symbol) :: seen) rest

/-! ### CLI models (`cli/cli.py` and `examples/price_up_down/cli/cli.py`) -/

/-- Exit code of `typer.Exit()` when called with no argument: the typer
library's `Exit` carries a default exit code of 0. -/
def typerExitDefaultCode : Nat := 0

/-- `abort(msg)` in `oracle-onchain/sep40/cli/cli.py`: prints the error
message and raises `typer.Exit(1)`.  Modelled as the printed message
together with the resulting process exit code. -/
def abort (msg : String) : String × Nat := (msg, 1)

/-- `abort(msg)` in `oracle-onchain/sep40/examples/price_up_down/cli/cli.py`:
prints the error message and raises `typer.Exit()` with no code argument,
so the process exits with typer's default code. -/
def abort_example (msg : String) : String × Nat := (msg, typerExitDefaultCode)

/-- The SDK's `GetTransactionStatus` values as used by `wait_tx`:
`NOT_FOUND` is the only status the loop retries on. -/
inductive GetTransactionStatus where
  | notFound
  | success
  | failed
deriving DecidableEq, Repr

/-- Fuel-indexed embedding of the unbounded `while True:` loop of
`wait_tx` in `examples/price_up_down/cli/cli.py`.  `responses i` is the
status returned by the `i`-th `get_transaction` poll; the second component
of the result counts the total seconds slept (`time.sleep(3)` after each
`NOT_FOUND` poll).  `none` means the loop has not terminated within `fuel`
polls. -/
def waitTxFuel (responses : Nat → GetTransactionStatus) :
    Nat → Nat → Nat → Option (GetTransactionStatus × Nat)
  | 0, _, _ => none
  | fuel + 1, i, slept =>
    if responses i ≠ GetTransactionStatus.notFound then
      some (responses i, slept)
    else
      waitTxFuel responses fuel (i + 1) (slept + 3)

/-- `wait_tx(tx_hash)`: run the poll loop from the first poll, nothing
slept yet.  The `fuel` bound is the embedding artifact for the unbounded
`while True:`; termination for some fuel is termination of the loop. -/
def wait_tx (responses : Nat → GetTransactionStatus) (fuel : Nat) :
    Option (GetTransactionStatus × Nat) :=
  waitTxFuel responses fuel 0 0

/-- The `AssetType` enum defined identically in both CLIs. -/
inductive AssetType where
  | stellar
  | other
deriving DecidableEq, Repr

/-- A Python value passed in the `asset_type` position of
`build_asset_enum`: either one of the two `AssetType` members, or any other
runtime value (carried as its display string). -/
inductive AssetTypeArg where
  | enumVal (a : AssetType)
  | nonEnum (displayed : String)
deriving DecidableEq, Repr

/-- The SDK value wrapped into the contract enum argument
(`scval.to_address`/`Address` or `scval.to_symbol`/`Symbol`). -/
inductive SCArg where
  | address (a : String)
  | symbol (s : String)
deriving DecidableEq, Repr

/-- Possible return values of `build_asset_enum`: the tagged contract enum
(`scval.to_enum(tag, inner)` in `cli/cli.py`, `Enum(tag, inner)` in the
example CLI — identical branch structure), or the `ValueError` *object*
that the fallback branch `return`s (it is not `raise`d). -/
inductive BuildAssetResult where
  | scEnum (tag : String) (arg : SCArg)
  | valueErrorObject (msg : String)
deriving DecidableEq, Repr

/-- Display string of an `asset_type` argument, for the f-string
`f"unexpected asset_type: ..."` in the fallback branch. -/
def displayAssetTypeArg : AssetTypeArg → String
  | AssetTypeArg.enumVal AssetType.stellar => "AssetType.stellar"
  | AssetTypeArg.enumVal AssetType.other => "AssetType.other"
  | AssetTypeArg.nonEnum s => s

/-- Embedding of `build_asset_enum(asset_type, asset)` (same branch
structure in both CLIs, modelled once).  A raised exception would be
`Except.error`; the function never raises — the fallback branch `return`s
the `ValueError` object as an ordinary value. -/
def build_asset_enum (asset_type : AssetTypeArg) (asset : String) :
    Except String BuildAssetResult :=
  if asset_type = AssetTypeArg.enumVal AssetType.stellar then
    Except.ok (BuildAssetResult.scEnum "Stellar" (SCArg.address asset))
  else if asset_type = AssetTypeArg.enumVal AssetType.other then
    Except.ok (BuildAssetResult.scEnum "Other" (SCArg.symbol asset))
  else
    Except.ok (BuildAssetResult.valueErrorObject
      ("unexpected asset_type: " ++ displayAssetTypeArg asset_type))

/-! ### Theorems -/

/-- C1: for every integer raw timestamp `t` and the fixed resolution
`r = 600`, `normalize_timestamp(t, r)` is the smallest multiple of `r` that
is ≥ `t`: the result is divisible by `r`, is ≥ `t`, exceeds `t` by less
than `r`, and equals `t` whenever `t` is already a multiple of `r`. -/
theorem normalize_timestamp_spec (t : Int) :
    normalize_timestamp t RESOLUTION % RESOLUTION = 0 ∧
    t ≤ normalize_timestamp t RESOLUTION ∧
    normalize_timestamp t RESOLUTION - t < RESOLUTION ∧
    (t % RESOLUTION = 0 → normalize_timestamp t RESOLUTION = t) := by
  have hr : (0 : Int) < RESOLUTION := by norm_num [RESOLUTION]
  exact ⟨normalize_timestamp_emod t RESOLUTION,
    le_normalize_timestamp t RESOLUTION hr,
    normalize_timestamp_sub_lt t RESOLUTION hr,
    fun h => normalize_timestamp_of_aligned t RESOLUTION hr h⟩

/-- Witness for C1 at the aligned input `t = 1200`. -/
theorem normalize_timestamp_spec_witness :
    (1200 : Int) % RESOLUTION = 0 ∧
    normalize_timestamp 1200 RESOLUTION = 1200 :=
  ⟨by decide, (normalize_timestamp_spec 1200).2.2.2 (by decide)⟩

/-- C8 (counterexample): the example CLI's `abort` raises `typer.Exit()`
with no code, so on this reported failure the process exits with code 0,
not 1. -/
theorem abort_example_exits_zero :
    (abort_example "Error: transaction failed").2 = 0 ∧
    ¬ (abort_example "Error: transaction failed").2 = 1 := by
  exact ⟨rfl, by decide⟩

/-- C8 (amended): the main CLI's `abort` prints the message and exits with
code 1, while the example CLI's `abort` prints the message and exits with
typer's default code 0 even though a failure was reported. -/
theorem abort_exit_codes (msg : String) :
    abort msg = (msg, 1) ∧
    abort_example msg = (msg, typerExitDefaultCode) ∧
    typerExitDefaultCode = 0 :=
  ⟨rfl, rfl, rfl⟩

/-- C10: for each of the two `AssetType` enum members `build_asset_enum`
takes the corresponding tagged branch (so the fallback is unreachable on
enum values), for any non-enum value the fallback branch returns the
`ValueError` object as an ordinary value, and on no input does the
function raise an exception (its result is always `Except.ok`). -/
theorem build_asset_enum_spec :
    (∀ asset : String,
      build_asset_enum (AssetTypeArg.enumVal AssetType.stellar) asset =
        Except.ok (BuildAssetResult.scEnum "Stellar" (SCArg.address asset)) ∧
      build_asset_enum (AssetTypeArg.enumVal AssetType.other) asset =
        Except.ok (BuildAssetResult.scEnum "Other" (SCArg.symbol asset))) ∧
    (∀ s asset : String,
      build_asset_enum (AssetTypeArg.nonEnum s) asset =
        Except.ok (BuildAssetResult.valueErrorObject
          ("unexpected asset_type: " ++ s))) ∧
    (∀ (v : AssetTypeArg) (asset : String),
      ∃ r, build_asset_enum v asset = Except.ok r) := by
  refine ⟨fun asset => ⟨rfl, rfl⟩, fun s asset => rfl, fun v asset => ?_⟩
  cases v with
  | enumVal a => cases a <;> exact ⟨_, rfl⟩
  | nonEnum s => exact ⟨_, rfl⟩

lemma waitTxFuel_all_notFound (responses : Nat → GetTransactionStatus)
    (h : ∀ i, responses i = GetTransactionStatus.notFound) :
    ∀ fuel i slept, waitTxFuel responses fuel i slept = none := by
  intro fuel
  induction fuel with
  | zero => intro i slept; rfl
  | succ fuel ih =>
    intro i slept
    simp only [waitTxFuel, h i, ne_eq, not_true_eq_false, if_false]
    exact ih (i + 1) (slept + 3)

lemma waitTxFuel_first (responses : Nat → GetTransactionStatus) :
    ∀ n fuel i slept, responses (i + n) ≠ GetTransactionStatus.notFound →
      (∀ m, m < n → responses (i + m) = GetTransactionStatus.notFound) →
      n < fuel →
      waitTxFuel responses fuel i slept =
        some (responses (i + n), slept + 3 * n) := by
  intro n
  induction n with
  | zero =>
    intro fuel i slept hne _ hf
    match fuel, hf with
    | fuel + 1, _ =>
      simp only [waitTxFuel, Nat.add_zero] at hne ⊢
      rw [if_pos hne]
      simp
  | succ n ih =>
    intro fuel i slept hne hm hf
    match fuel, hf with
    | fuel + 1, hf =>
      have h0 : responses i = GetTransactionStatus.notFound := by
        have := hm 0 (Nat.succ_pos n)
        simpa using this
      simp only [waitTxFuel, h0, ne_eq, not_true_eq_false, if_false]
      have e1 : i + (n + 1) = (i + 1) + n := by omega
      have e2 : slept + 3 * (n + 1) = (slept + 3) + 3 * n := by omega
      rw [e1, e2]
      refine ih fuel (i + 1) (slept + 3) (by rw [← e1]; exact hne) ?_ (by omega)
      intro m hm'
      have := hm (m + 1) (by omega)
      rwa [show i + (m + 1) = (i + 1) + m by omega] at this

/-- C9: `wait_tx` polls `get_transaction` at a fixed 3-second interval with
no retry cap and returns the first polled status that is not `NOT_FOUND`:
if the first non-`NOT_FOUND` response is the `n`-th poll, the loop finishes
within any fuel bound exceeding `n`, returning that status after `3 * n`
seconds of sleeping; and the loop terminates for some fuel bound if and
only if some response has a status other than `NOT_FOUND`. -/
theorem wait_tx_spec (responses : Nat → GetTransactionStatus) :
    (∀ n, responses n ≠ GetTransactionStatus.notFound →
      (∀ m, m < n → responses m = GetTransactionStatus.notFound) →
      ∀ fuel, n < fuel →
        wait_tx responses fuel = some (responses n, 3 * n)) ∧
    ((∃ fuel r, wait_tx responses fuel = some r) ↔
      ∃ n, responses n ≠ GetTransactionStatus.notFound) := by
  have hfirst : ∀ n, responses n ≠ GetTransactionStatus.notFound →
      (∀ m, m < n → responses m = GetTransactionStatus.notFound) →
      ∀ fuel, n < fuel →
        wait_tx responses fuel = some (responses n, 3 * n) := by
    intro n hne hm fuel hf
    have h := waitTxFuel_first responses n fuel 0 0
      (by simpa using hne) (fun m hm' => by simpa using hm m hm') hf
    simpa [wait_tx] using h
  refine ⟨hfirst, ?_, ?_⟩
  · rintro ⟨fuel, r, hr⟩
    by_contra hno
    push_neg at hno
    have h := waitTxFuel_all_notFound responses hno fuel 0 0
    rw [wait_tx, h] at hr
    exact Option.noConfusion hr
  · rintro ⟨n, hn⟩
    have hex : ∃ n, responses n ≠ GetTransactionStatus.notFound := ⟨n, hn⟩
    let n₀ := Nat.find hex
    have hn₀ : responses n₀ ≠ GetTransactionStatus.notFound := Nat.find_spec hex
    have hmin : ∀ m, m < n₀ → responses m = GetTransactionStatus.notFound := by
      intro m hm
      have := Nat.find_min hex hm
      simpa using this
    exact ⟨n₀ + 1, (responses n₀, 3 * n₀),
      hfirst n₀ hn₀ hmin (n₀ + 1) (Nat.lt_succ_self n₀)⟩

/-- Witness for C9: with the third poll the first non-`NOT_FOUND` one,
`wait_tx` returns that status after two 3-second sleeps. -/
theorem wait_tx_spec_witness :
    wait_tx
      (fun i => if i = 2 then GetTransactionStatus.success
        else GetTransactionStatus.notFound) 3 =
      some (GetTransactionStatus.success, 6) :=
  (wait_tx_spec
      (fun i => if i = 2 then GetTransactionStatus.success
        else GetTransactionStatus.notFound)).1
    2 (by decide) (by decide) 3 (by decide)

/-- The `source_symbols` dict that the loop of `add_prices_to_blockchain`
has built after consuming all of `prices`, starting from `ss`. -/
def buildSourceSymbols (ss : List (Int × List String)) :
    List FeedRow → List (Int × List String)
  | [] => ss
  | p :: rest => buildSourceSymbols (addSymbol ss p.source p.symbol) rest

lemma mem_flattenSourceSymbols_addSymbol_self (d : List (Int × List String))
    (src : Int) (sym : String) :
    (src, sym) ∈ flattenSourceSymbols (addSymbol d src sym) := by
  induction d with
  | nil => simp [addSymbol, flattenSourceSymbols]
  | cons e rest ih =>
    obtain ⟨s, syms⟩ := e
    by_cases hs : s = src
    · subst hs
      simp [addSymbol, flattenSourceSymbols]
    · simp only [addSymbol, if_neg hs, flattenSourceSymbols, List.flatMap_cons,
        List.mem_append]
      right
      simpa [flattenSourceSymbols] using ih

lemma mem_flattenSourceSymbols_addSymbol_mono (d : List (Int × List String))
    (src : Int) (sym : String) (x : Int × String)
    (hx : x ∈ flattenSourceSymbols d) :
    x ∈ flattenSourceSymbols (addSymbol d src sym) := by
  induction d with
  | nil => simp [flattenSourceSymbols] at hx
  | cons e rest ih =>
    obtain ⟨s, syms⟩ := e
    simp only [flattenSourceSymbols, List.flatMap_cons, List.mem_append] at hx
    by_cases hs : s = src
    · subst hs
      have hstep : addSymbol ((s, syms) :: rest) s sym = (s, syms ++ [sym]) :: rest := by
        simp [addSymbol]
      rw [hstep]
      simp only [flattenSourceSymbols, List.flatMap_cons, List.mem_append]
      rcases hx with hx | hx
      · left
        simp only [List.mem_map] at hx ⊢
        obtain ⟨y, hy, hxy⟩ := hx
        exact ⟨y, List.mem_append_left _ hy, hxy⟩
      · right; exact hx
    · have hstep : addSymbol ((s, syms) :: rest) src sym =
          (s, syms) :: addSymbol rest src sym := by
        simp [addSymbol, hs]
      rw [hstep]
      simp only [flattenSourceSymbols, List.flatMap_cons, List.mem_append]
      rcases hx with hx | hx
      · left; exact hx
      · right; exact ih hx

lemma mem_flattenSourceSymbols_buildSourceSymbols_mono :
    ∀ (prices : List FeedRow) (ss : List (Int × List String)) (x : Int × String),
      x ∈ flattenSourceSymbols ss →
      x ∈ flattenSourceSymbols (buildSourceSymbols ss prices) := by
  intro prices
  induction prices with
  | nil => intro ss x hx; exact hx
  | cons p rest ih =>
    intro ss x hx
    exact ih _ x (mem_flattenSourceSymbols_addSymbol_mono ss p.source p.symbol x hx)

lemma mem_flattenSourceSymbols_buildSourceSymbols :
    ∀ (prices : List FeedRow) (ss : List (Int × List String)) (p : FeedRow),
      p ∈ prices →
      (p.source, p.symbol) ∈ flattenSourceSymbols (buildSourceSymbols ss prices) := by
  intro prices
  induction prices with
  | nil => intro ss p hp; simp at hp
  | cons q rest ih =>
    intro ss p hp
    rcases List.mem_cons.mp hp with hp | hp
    · subst hp
      exact mem_flattenSourceSymbols_buildSourceSymbols_mono rest _ _
        (mem_flattenSourceSymbols_addSymbol_self ss p.source p.symbol)
    · exact ih _ p hp

lemma partitionPricesLoop_ok_sourceSymbols :
    ∀ (prices : List FeedRow) (xlm usd : List ParsedPrice)
      (ss : List (Int × List String))
      (out : List ParsedPrice × List ParsedPrice × List (Int × List String)),
      partitionPricesLoop xlm usd ss prices = Except.ok out →
      out.2.2 = buildSourceSymbols ss prices := by
  intro prices
  induction prices with
  | nil =>
    intro xlm usd ss out h
    simp only [partitionPricesLoop] at h
    cases h
    rfl
  | cons p rest ih =>
    intro xlm usd ss out h
    simp only [partitionPricesLoop] at h
    by_cases h1 : p.sell_asset = "XLM"
    · rw [if_pos h1] at h
      exact ih _ _ _ _ h
    · rw [if_neg h1] at h
      by_cases h2 : p.sell_asset = "USD"
      · rw [if_pos h2] at h
        exact ih _ _ _ _ h
      · rw [if_neg h2] at h
        exact Except.noConfusion h

/-- A stale-price row used as concrete input in witnesses and
counterexamples: source 1, symbol "A", priced against XLM, with raw
`updated_at` timestamp 0. -/
def exRowXLM : DbRow :=
  { id := 1, updated_at := 0, source := 1, symbol := "A", price := "1.5",
    sell_asset := "XLM", buy_asset := "USDC" }

/-- `exRowXLM` with the normalized timestamp 1200 attached by the feeder. -/
def exFeedXLM : FeedRow := { toDbRow := exRowXLM, normalized_timestamp := 1200 }

/-- The `parsed_price` dict built from `exFeedXLM`. -/
def exParsedXLM : ParsedPrice :=
  { source := 1, asset_type := "other", asset := "USDC", price := "1.5",
    timestamp := 1200 }

/-- The audit-log row of the failed submission of `[exFeedXLM]`. -/
def exFailedLog : LogEntry :=
  { command := { contractId := TESTNET_CONTRACT_XLM, pricesArg := [exParsedXLM] },
    success := false, output := "tx failed" }

/-- C2 (counterexample): with a single XLM-based price row whose submission
reports failure (`run_cli` returns success = `False`), the batch run still
marks the pair `(1, "A")` as `added_to_blockchain`: the audit log records
the failure, yet the pair is in the marked set, so the next run will not
re-read it. -/
theorem add_prices_marks_pair_despite_failed_submission :
    add_prices_to_blockchain (fun _ => (false, "tx failed")) [exFeedXLM] =
      Except.ok (AddEffects.mk [exFailedLog] [(1, "A")]) := rfl

/-- C2 (amended): after a batch submission run, the set of
`(source, symbol)` pairs marked `added_to_blockchain` is exactly the pairs
of all forwarded rows, computed independently of the reported success of
the submissions; in particular every forwarded pair is marked even when its
group's submission failed. -/
theorem add_prices_marked_pairs_unconditional
    (runCli : CliCmd → Bool × String) (prices : List FeedRow)
    (eff : AddEffects)
    (h : add_prices_to_blockchain runCli prices = Except.ok eff) :
    eff.marked = flattenSourceSymbols (buildSourceSymbols [] prices) ∧
    ∀ p ∈ prices, (p.source, p.symbol) ∈ eff.marked := by
  rw [add_prices_to_blockchain] at h
  cases hp : partitionPricesLoop [] [] [] prices with
  | error e => rw [hp] at h; exact Except.noConfusion h
  | ok out =>
    rw [hp] at h
    obtain ⟨xlm, usd, ss⟩ := out
    simp only at h
    have hss : ss = buildSourceSymbols [] prices :=
      partitionPricesLoop_ok_sourceSymbols prices [] [] [] (xlm, usd, ss) hp
    cases h
    constructor
    · rw [hss]
    · intro p hp'
      rw [hss]
      exact mem_flattenSourceSymbols_buildSourceSymbols prices [] p hp'

/-- Witness for C2 (amended) at the failing-submission input: the pair
`(1, "A")` is marked even though the only submission reported failure. -/
theorem add_prices_marked_pairs_unconditional_witness :
    ((1 : Int), "A") ∈ (AddEffects.mk [exFailedLog] [(1, "A")]).marked :=
  (add_prices_marked_pairs_unconditional (fun _ => (false, "tx failed"))
      [exFeedXLM] _ rfl).2 exFeedXLM (List.mem_singleton.mpr rfl)

lemma RESOLUTION_pos : (0 : Int) < RESOLUTION := by norm_num [RESOLUTION]

lemma readPricesLoop_mem_timestamp (times : Nat → Int) :
    ∀ (rows : List DbRow) (idx : Nat) (seen : List (Int × String)) (r : FeedRow),
      r ∈ readPricesLoop times rows idx seen →
      ∃ i, r.normalized_timestamp = normalize_timestamp (times i) RESOLUTION ∧
        r.normalized_timestamp = times i ∧ times i % RESOLUTION = 0 := by
  intro rows
  induction rows with
  | nil => intro idx seen r hr; simp [readPricesLoop] at hr
  | cons row rest ih =>
    intro idx seen r hr
    simp only [readPricesLoop] at hr
    by_cases hdup : (row.source, row.symbol) ∈ seen
    · rw [if_pos hdup] at hr
      exact ih (idx + 1) seen r hr
    · rw [if_neg hdup] at hr
      by_cases hle : normalize_timestamp (times idx) RESOLUTION ≤ times idx
      · rw [if_pos hle] at hr
        rcases List.mem_cons.mp hr with hr | hr
        · have haligned : times idx % RESOLUTION = 0 :=
            (normalize_timestamp_le_self_iff (times idx) RESOLUTION
              RESOLUTION_pos).mp hle
          have heq : normalize_timestamp (times idx) RESOLUTION = times idx :=
            normalize_timestamp_of_aligned (times idx) RESOLUTION
              RESOLUTION_pos haligned
          refine ⟨idx, ?_, ?_, haligned⟩
          · rw [hr]
          · rw [hr, heq]
        · exact ih (idx + 1) _ r hr
      · rw [if_neg hle] at hr
        exact ih (idx + 1) seen r hr

lemma readPricesLoop_empty_of_misaligned (times : Nat → Int)
    (h : ∀ i, times i % RESOLUTION ≠ 0) :
    ∀ (rows : List DbRow) (idx : Nat) (seen : List (Int × String)),
      readPricesLoop times rows idx seen = [] := by
  intro rows
  induction rows with
  | nil => intro idx seen; rfl
  | cons row rest ih =>
    intro idx seen
    have hnle : ¬ normalize_timestamp (times idx) RESOLUTION ≤ times idx := by
      intro hle
      exact h idx ((normalize_timestamp_le_self_iff (times idx) RESOLUTION
        RESOLUTION_pos).mp hle)
    simp only [readPricesLoop, hnle, if_false]
    by_cases hdup : (row.source, row.symbol) ∈ seen
    · rw [if_pos hdup]; exact ih (idx + 1) seen
    · rw [if_neg hdup]; exact ih (idx + 1) seen

lemma readPricesLoop_const_aligned (t : Int) (ht : t % RESOLUTION = 0) :
    ∀ (rows : List DbRow) (idx : Nat) (seen : List (Int × String)),
      readPricesLoop (fun _ => t) rows idx seen =
        (keepFirstOccurrences seen rows).map
          (fun r => { toDbRow := r, normalized_timestamp := t }) := by
  have hnorm : normalize_timestamp t RESOLUTION = t :=
    normalize_timestamp_of_aligned t RESOLUTION RESOLUTION_pos ht
  intro rows
  induction rows with
  | nil => intro idx seen; rfl
  | cons row rest ih =>
    intro idx seen
    simp only [readPricesLoop, keepFirstOccurrences, hnorm, le_refl, if_true]
    by_cases hdup : (row.source, row.symbol) ∈ seen
    · rw [if_pos hdup, if_pos hdup]
      exact ih (idx + 1) seen
    · rw [if_neg hdup, if_neg hdup]
      simp only [List.map_cons]
      exact congrArg _ (ih (idx + 1) _)

/-- C3 (counterexample): a row whose own raw timestamp (`updated_at`) is 0,
read while the wall clock stands at 1200, is handed to the submission step
with timestamp 1200 — the normalized read-time clock — whereas the row's
own raw timestamp rounded up to the next multiple of 600 is 0. -/
theorem read_prices_ignores_row_timestamp :
    readPricesLoop (fun _ => 1200) [exRowXLM] 0 [] = [exFeedXLM] ∧
    (parsedPriceOf exFeedXLM).timestamp = 1200 ∧
    normalize_timestamp exRowXLM.updated_at RESOLUTION = 0 ∧
    (1200 : Int) ≠ 0 := by
  refine ⟨?_, rfl, ?_, by decide⟩
  · rw [readPricesLoop_const_aligned 1200 (by decide) [exRowXLM] 0 []]
    rfl
  · exact normalize_timestamp_of_aligned exRowXLM.updated_at RESOLUTION
      RESOLUTION_pos (by decide)

/-- C3 (amended): the timestamp field handed to the submission step for a
forwarded row is the wall-clock time at which the row was read, normalized
(equal to the raw clock value, which the keep-filter forces to be an exact
multiple of 600) — it is not derived from the row's own timestamp. -/
theorem read_prices_timestamp_is_read_time (times : Nat → Int)
    (rows : List DbRow) (r : FeedRow)
    (hr : r ∈ readPricesLoop times rows 0 []) :
    ∃ i, (parsedPriceOf r).timestamp = normalize_timestamp (times i) RESOLUTION ∧
      (parsedPriceOf r).timestamp = times i ∧
      (parsedPriceOf r).timestamp % RESOLUTION = 0 := by
  obtain ⟨i, h1, h2, h3⟩ := readPricesLoop_mem_timestamp times rows 0 [] r hr
  exact ⟨i, h1, h2, by rw [show (parsedPriceOf r).timestamp = times i from h2]; exact h3⟩

/-- Witness for C3 (amended) at the concrete aligned clock 1200. -/
theorem read_prices_timestamp_is_read_time_witness :
    ∃ _i : Nat, (parsedPriceOf exFeedXLM).timestamp =
        normalize_timestamp 1200 RESOLUTION ∧
      (parsedPriceOf exFeedXLM).timestamp = 1200 ∧
      (parsedPriceOf exFeedXLM).timestamp % RESOLUTION = 0 :=
  read_prices_timestamp_is_read_time (fun _ => 1200) [exRowXLM] exFeedXLM
    (by rw [readPricesLoop_const_aligned 1200 (by decide) [exRowXLM] 0 []]
        decide)

/-- C4: a row read from the database is appended to the outgoing prices
only at a read time whose clock value is an exact multiple of 600 (the
computed ceiling is kept only if it is ≤ the clock, hence equal to it);
whenever every clock reading is misaligned, all rows are dropped and the
run performs no submission and no database marking. -/
theorem read_prices_only_on_aligned_clock (times : Nat → Int)
    (rows : List DbRow) (runCli : CliCmd → Bool × String) :
    (∀ r ∈ readPricesLoop times rows 0 [],
      ∃ i, times i % RESOLUTION = 0 ∧ r.normalized_timestamp = times i) ∧
    ((∀ i, times i % RESOLUTION ≠ 0) →
      readPricesLoop times rows 0 [] = [] ∧
      read_prices_from_db times runCli rows = none) := by
  constructor
  · intro r hr
    obtain ⟨i, _, h2, h3⟩ := readPricesLoop_mem_timestamp times rows 0 [] r hr
    exact ⟨i, h3, h2⟩
  · intro h
    have he := readPricesLoop_empty_of_misaligned times h rows 0 []
    refine ⟨he, ?_⟩
    simp [read_prices_from_db, he]

/-- Witness for C4 at the misaligned clock 100: the single row is dropped
and the run submits and marks nothing. -/
theorem read_prices_only_on_aligned_clock_witness :
    readPricesLoop (fun _ => 100) [exRowXLM] 0 [] = [] ∧
    read_prices_from_db (fun _ => 100) (fun _ => (true, "ok")) [exRowXLM] =
      none :=
  (read_prices_only_on_aligned_clock (fun _ => 100) [exRowXLM]
      (fun _ => (true, "ok"))).2 (fun i => by decide)

/-- A second row with the same `(source, symbol)` pair as `exRowXLM` but a
different id and price, used to exercise deduplication. -/
def exRowXLMdup : DbRow :=
  { id := 2, updated_at := 0, source := 1, symbol := "A", price := "1.6",
    sell_asset := "XLM", buy_asset := "USDC" }

/-- C5: at any aligned read-time clock `t`, the rows kept by the batch
feeder are exactly the first occurrences of each `(source, symbol)` pair in
input order — later rows with an already-seen pair are skipped. -/
theorem read_prices_dedup_first_occurrence (t : Int)
    (ht : t % RESOLUTION = 0) (rows : List DbRow) :
    readPricesLoop (fun _ => t) rows 0 [] =
      (keepFirstOccurrences [] rows).map
        (fun r => { toDbRow := r, normalized_timestamp := t }) :=
  readPricesLoop_const_aligned t ht rows 0 []

/-- Witness for C5: of two rows sharing `(source 1, symbol "A")`, only the
first occurrence is kept. -/
theorem read_prices_dedup_first_occurrence_witness :
    readPricesLoop (fun _ => 1200) [exRowXLM, exRowXLMdup] 0 [] = [exFeedXLM] :=
  (read_prices_dedup_first_occurrence 1200 (by decide)
      [exRowXLM, exRowXLMdup]).trans (by decide)

lemma partitionPricesLoop_ok_of_supported :
    ∀ (prices : List FeedRow) (xlm usd : List ParsedPrice)
      (ss : List (Int × List String)),
      (∀ p ∈ prices, p.sell_asset = "XLM" ∨ p.sell_asset = "USD") →
      partitionPricesLoop xlm usd ss prices =
        Except.ok
          (xlm ++ (prices.filter (fun p => p.sell_asset == "XLM")).map parsedPriceOf,
           usd ++ (prices.filter (fun p => p.sell_asset == "USD")).map parsedPriceOf,
           buildSourceSymbols ss prices) := by
  intro prices
  induction prices with
  | nil => intro xlm usd ss _; simp [partitionPricesLoop, buildSourceSymbols]
  | cons p rest ih =>
    intro xlm usd ss h
    have hrest : ∀ q ∈ rest, q.sell_asset = "XLM" ∨ q.sell_asset = "USD" :=
      fun q hq => h q (List.mem_cons_of_mem p hq)
    rcases h p (List.mem_cons_self p rest) with h1 | h1
    · have hx : (p.sell_asset == "XLM") = true := by simp [h1]
      have hu : (p.sell_asset == "USD") = false := by simp [h1]
      simp only [partitionPricesLoop, if_pos h1, List.filter_cons, hx, hu,
        if_true, if_false, List.map_cons, buildSourceSymbols]
      rw [ih (xlm ++ [parsedPriceOf p]) usd (addSymbol ss p.source p.symbol) hrest]
      simp [List.append_assoc]
    · have hne : ¬ p.sell_asset = "XLM" := by rw [h1]; decide
      have hx : (p.sell_asset == "XLM") = false := by simp [h1]
      have hu : (p.sell_asset == "USD") = true := by simp [h1]
      simp only [partitionPricesLoop, if_neg hne, if_pos h1, List.filter_cons,
        hx, hu, if_true, if_false, List.map_cons, buildSourceSymbols]
      rw [ih xlm (usd ++ [parsedPriceOf p]) (addSymbol ss p.source p.symbol) hrest]
      simp [List.append_assoc]

lemma filter_partition_perm (prices : List FeedRow)
    (h : ∀ p ∈ prices, p.sell_asset = "XLM" ∨ p.sell_asset = "USD") :
    List.Perm
      ((prices.filter (fun p => p.sell_asset == "XLM")).map parsedPriceOf ++
       (prices.filter (fun p => p.sell_asset == "USD")).map parsedPriceOf)
      (prices.map parsedPriceOf) := by
  induction prices with
  | nil => simp
  | cons p rest ih =>
    have hrest : ∀ q ∈ rest, q.sell_asset = "XLM" ∨ q.sell_asset = "USD" :=
      fun q hq => h q (List.mem_cons_of_mem p hq)
    have ih' := ih hrest
    rcases h p (List.mem_cons_self p rest) with h1 | h1
    · have hx : (p.sell_asset == "XLM") = true := by simp [h1]
      have hu : (p.sell_asset == "USD") = false := by simp [h1]
      simp only [List.filter_cons, hx, hu, if_true, if_false, List.map_cons,
        List.cons_append]
      exact List.Perm.cons _ ih'
    · have hx : (p.sell_asset == "XLM") = false := by simp [h1]
      have hu : (p.sell_asset == "USD") = true := by simp [h1]
      simp only [List.filter_cons, hx, hu, if_true, if_false, List.map_cons]
      exact List.perm_middle.trans (List.Perm.cons _ ih')

/-- C6: when every forwarded row settles in XLM or USD, the batcher splits
the list into the XLM-based and USD-based groups — the two order-preserving
sublists selected by the mutually exclusive `sell_asset` tests — and the
two groups together are a permutation of (exactly exhaust) the forwarded
input. -/
theorem add_prices_partitions_by_sell_asset (prices : List FeedRow)
    (h : ∀ p ∈ prices, p.sell_asset = "XLM" ∨ p.sell_asset = "USD") :
    partitionPricesLoop [] [] [] prices =
      Except.ok
        ((prices.filter (fun p => p.sell_asset == "XLM")).map parsedPriceOf,
         (prices.filter (fun p => p.sell_asset == "USD")).map parsedPriceOf,
         buildSourceSymbols [] prices) ∧
    List.Perm
      ((prices.filter (fun p => p.sell_asset == "XLM")).map parsedPriceOf ++
       (prices.filter (fun p => p.sell_asset == "USD")).map parsedPriceOf)
      (prices.map parsedPriceOf) := by
  refine ⟨?_, filter_partition_perm prices h⟩
  have h0 := partitionPricesLoop_ok_of_supported prices [] [] [] h
  simpa using h0

/-- A USD-settled row used in witnesses. -/
def exRowUSD : DbRow :=
  { id := 3, updated_at := 0, source := 1, symbol := "B", price := "2.0",
    sell_asset := "USD", buy_asset := "BTC" }

/-- `exRowUSD` with the normalized timestamp 1200 attached. -/
def exFeedUSD : FeedRow := { toDbRow := exRowUSD, normalized_timestamp := 1200 }

/-- Witness for C6 on a mixed XLM/USD input. -/
theorem add_prices_partitions_by_sell_asset_witness :
    partitionPricesLoop [] [] [] [exFeedXLM, exFeedUSD] =
      Except.ok
        (([exFeedXLM, exFeedUSD].filter (fun p => p.sell_asset == "XLM")).map
           parsedPriceOf,
         ([exFeedXLM, exFeedUSD].filter (fun p => p.sell_asset == "USD")).map
           parsedPriceOf,
         buildSourceSymbols [] [exFeedXLM, exFeedUSD]) ∧
    List.Perm
      (([exFeedXLM, exFeedUSD].filter (fun p => p.sell_asset == "XLM")).map
         parsedPriceOf ++
       ([exFeedXLM, exFeedUSD].filter (fun p => p.sell_asset == "USD")).map
         parsedPriceOf)
      ([exFeedXLM, exFeedUSD].map parsedPriceOf) :=
  add_prices_partitions_by_sell_asset [exFeedXLM, exFeedUSD] (by decide)

lemma partitionPricesLoop_error_of_unsupported :
    ∀ (prices : List FeedRow) (xlm usd : List ParsedPrice)
      (ss : List (Int × List String)),
      (∃ p ∈ prices, p.sell_asset ≠ "XLM" ∧ p.sell_asset ≠ "USD") →
      ∃ msg, partitionPricesLoop xlm usd ss prices = Except.error msg := by
  intro prices
  induction prices with
  | nil => intro xlm usd ss h; simp at h
  | cons p rest ih =>
    intro xlm usd ss h
    by_cases h1 : p.sell_asset = "XLM"
    · obtain ⟨q, hq, hbad⟩ := h
      rcases List.mem_cons.mp hq with hq | hq
      · exact absurd h1 (hq ▸ hbad).1
      · simp only [partitionPricesLoop, if_pos h1]
        exact ih _ _ _ ⟨q, hq, hbad⟩
    · by_cases h2 : p.sell_asset = "USD"
      · obtain ⟨q, hq, hbad⟩ := h
        rcases List.mem_cons.mp hq with hq | hq
        · exact absurd h2 (hq ▸ hbad).2
        · simp only [partitionPricesLoop, if_neg h1, if_pos h2]
          exact ih _ _ _ ⟨q, hq, hbad⟩
      · exact ⟨"Unexpected price sell_asset: " ++ p.sell_asset,
          by simp only [partitionPricesLoop, if_neg h1, if_neg h2]⟩

/-- C7: whenever some forwarded row settles in an asset other than XLM or
USD, `add_prices_to_blockchain` raises the unexpected-`sell_asset`
`ValueError` (modelled as `Except.error`) instead of silently dropping the
row. -/
theorem add_prices_unsupported_sell_asset_errors
    (runCli : CliCmd → Bool × String) (prices : List FeedRow)
    (h : ∃ p ∈ prices, p.sell_asset ≠ "XLM" ∧ p.sell_asset ≠ "USD") :
    ∃ msg, add_prices_to_blockchain runCli prices = Except.error msg := by
  obtain ⟨msg, hmsg⟩ := partitionPricesLoop_error_of_unsupported prices [] [] [] h
  exact ⟨msg, by rw [add_prices_to_blockchain, hmsg]⟩

/-- A EUR-settled row (unsupported settlement asset) used in witnesses. -/
def exRowEUR : DbRow :=
  { id := 4, updated_at := 0, source := 2, symbol := "E", price := "9.9",
    sell_asset := "EUR", buy_asset := "ETH" }

/-- `exRowEUR` with the normalized timestamp 1200 attached. -/
def exFeedEUR : FeedRow := { toDbRow := exRowEUR, normalized_timestamp := 1200 }

/-- Witness for C7 on a `sell_asset = "EUR"` row. -/
theorem add_prices_unsupported_sell_asset_errors_witness :
    ∃ msg, add_prices_to_blockchain (fun _ => (true, "ok")) [exFeedEUR] =
      Except.error msg :=
  add_prices_unsupported_sell_asset_errors (fun _ => (true, "ok")) [exFeedEUR]
    (by decide)

end LightechoOracle
